import Mathlib

/-!
Verification development for the remote-laboratory repository.

The definitions below are shallow embeddings of the Python sources:
* `src/lab-manager/main.py` — the pulse-train correction routine
  `_format_correction_output` and its helpers;
* `src/collecting_profinet.py` — the collector's `convert_data` encoding;
* `src/src/db_dao.py` — the `RemoteLaboratoryDAO` persistence layer,
  modelled as pure state transitions over an explicit database state.

Python dynamic values that flow into the correction routine are modelled by
`PyVal` (None, bool, int, float, str), with CPython floats represented as
rationals.  Machine behaviour that is external to the repository (the
`cryptography` Fernet cipher, the SQL engines) is modelled by explicit
parameters or by the documented SQLite schema constraints.
-/

/-- Model of a Python dynamic value as it can reach `_truncate_int` in
`src/lab-manager/main.py`: `None`, `bool`, `int`, `float` (represented as a
rational) or `str`. -/
inductive PyVal where
  | none : PyVal
  | bool : Bool → PyVal
  | int : Int → PyVal
  | float : Rat → PyVal
  | str : String → PyVal
deriving DecidableEq, Repr

/-- A `(value, duration)` pair as handled by the correction routine. -/
abbrev PairV := PyVal × PyVal

/-- Truncation of a rational toward zero: the behaviour of Python `int()` on
a float. -/
def ratTrunc (q : Rat) : Int :=
  if 0 ≤ q.num then ((q.num.natAbs / q.den : Nat) : Int)
  else -((q.num.natAbs / q.den : Nat) : Int)

/-- Value of a list of decimal digit characters, most significant first. -/
def digitsVal (l : List Char) : Nat :=
  l.foldl (fun a c => a * 10 + (c.toNat - 48)) 0

/-- Decimal-literal fragment of Python `float(str)`: optional surrounding
whitespace, optional sign, decimal digits with at most one dot (`"1"`,
`"1.5"`, `".5"`, `"5."`).  Exotic accepted forms of CPython (`"inf"`,
`"nan"`, exponents, underscores) are outside the fragment and parse to
`none`, as do all strings Python rejects. -/
def parsePyFloat (s : String) : Option Rat :=
  let t := s.trim.data
  let signBody : Rat × List Char :=
    match t with
    | '+' :: r => (1, r)
    | '-' :: r => (-1, r)
    | r => (1, r)
  let body := signBody.2
  match body.splitOn '.' with
  | [d] =>
      if d ≠ [] ∧ d.all Char.isDigit then some (signBody.1 * digitsVal d) else Option.none
  | [d1, d2] =>
      if (d1 ++ d2) ≠ [] ∧ (d1 ++ d2).all Char.isDigit then
        some (signBody.1 * ((digitsVal d1 : Rat) + (digitsVal d2 : Rat) / ((10 : Rat) ^ d2.length)))
      else Option.none
  | _ => Option.none

/-- Embedding of `_truncate_int` (src/lab-manager/main.py:215-229):
`None → None`; `bool → int(bool)`; `int` unchanged; `float` truncated toward
zero; `str` via `int(float(value))` with failures mapped to `None`. -/
def truncate_int : PyVal → Option Int
  | PyVal.none => Option.none
  | PyVal.bool b => some (if b then 1 else 0)
  | PyVal.int n => some n
  | PyVal.float q => some (ratTrunc q)
  | PyVal.str s => (parsePyFloat s).map ratTrunc

/-- Embedding of the local `_step_ok` of `_format_correction_output`
(src/lab-manager/main.py:262-267): both values truncate to integers and the
integers coincide. -/
def step_ok (expected actual : PyVal) : Bool :=
  match truncate_int expected, truncate_int actual with
  | some e, some a => e = a
  | _, _ => false

/-- Embedding of the local `_time_ok` of `_format_correction_output`
(src/lab-manager/main.py:269-274): identical to `_step_ok`, an exact
comparison of the truncated integers. -/
def time_ok (expected actual : PyVal) : Bool :=
  match truncate_int expected, truncate_int actual with
  | some e, some a => e = a
  | _, _ => false

/-- Embedding of the local `_value_invalid` (src/lab-manager/main.py:276-282)
with `bitCount = len(io_names)`: with no I/Os nothing is invalid; otherwise a
value is invalid when it has no integer reading or exceeds
`2 ^ bitCount - 1`. -/
def value_invalid (bitCount : Nat) (value : PyVal) : Bool :=
  if bitCount = 0 then false
  else
    match truncate_int value with
    | Option.none => true
    | some v => decide ((2 ^ bitCount - 1 : Int) < v)

/-- Embedding of `convert_data` (src/collecting_profinet.py:26-33): walk the
step list in reverse, adding a doubling factor for each truthy element. -/
def convert_data (step : List Bool) : Nat :=
  (step.reverse.foldl
    (fun acc elemento =>
      let resultado := if elemento then acc.1 + acc.2 else acc.1
      (resultado, acc.2 * 2))
    (0, 1)).1

/-- Python `(v >> k) & 1` on an `int`: arithmetic (floor) shift then mask,
used by the bit-level decoding in `_format_correction_output`
(src/lab-manager/main.py:362-363). -/
def pyBit (v : Int) (k : Nat) : Int :=
  Int.emod (Int.fdiv v ((2 : Int) ^ k)) 2

/-- The `exp_bit`/`act_bit` computation of `_format_correction_output`: the
bit of a possibly-absent integer, with `None` decoded as bit `0`. -/
def pyBitOpt (v : Option Int) (k : Nat) : Int :=
  match v with
  | some n => pyBit n k
  | Option.none => 0

/-- Binary digit characters of a natural, most significant first. -/
def natBinDigits (n : Nat) : List Char := Nat.toDigits 2 n

/-- Embedding of `_format_bits` (src/lab-manager/main.py:232-235), i.e.
Python `format(value, f"0{width}b")` guarded by `value is None or
width <= 0`: sign, then zero padding up to `width` total characters, then the
binary digits. -/
def format_bits (value : Option Int) (width : Nat) : String :=
  match value with
  | Option.none => ""
  | some v =>
      if width = 0 then ""
      else
        let digits := natBinDigits v.natAbs
        let sign : List Char := if v < 0 then ['-'] else []
        let pad : List Char := List.replicate (width - (sign.length + digits.length)) '0'
        String.mk (sign ++ pad ++ digits)

/-- Decimal rendering of a rational whose denominator divides a power of ten,
modelling Python `str` on the floats that arise from decimal literals
(`str(1.0) = "1.0"`, `str(1.9) = "1.9"`); other denominators fall back to a
fraction rendering. -/
def ratRepr (q : Rat) : String :=
  match (List.range 40).find? (fun k => 10 ^ k % q.den = 0) with
  | some k =>
      let scaled := q.num.natAbs * (10 ^ k / q.den)
      let intPart := scaled / 10 ^ k
      let fracPart := scaled % 10 ^ k
      let fracDigits := toString fracPart
      let fracStr := String.mk (List.replicate (k - fracDigits.length) '0') ++ fracDigits
      let sign := if q.num < 0 then "-" else ""
      if k = 0 then sign ++ toString intPart ++ ".0"
      else sign ++ toString intPart ++ "." ++ fracStr
  | Option.none => toString q.num ++ "/" ++ toString q.den

/-- Python `str()` of a `PyVal`, used by the f-string interpolations of
`_format_correction_output`. -/
def PyVal.toStr : PyVal → String
  | PyVal.none => "None"
  | PyVal.bool b => if b then "True" else "False"
  | PyVal.int n => toString n
  | PyVal.float q => ratRepr q
  | PyVal.str s => s

/-- Python `sep.join(parts)`: the parts interleaved with the separator. -/
def pyJoin (sep : String) : List String → String
  | [] => ""
  | [x] => x
  | x :: xs => x ++ sep ++ pyJoin sep xs

/-- Embedding of `f"{value}/{time_value}"` from the local
`_format_value_time` (src/lab-manager/main.py:284-285). -/
def format_value_time (value timeValue : PyVal) : String :=
  value.toStr ++ "/" ++ timeValue.toStr

/-- Embedding of the local `_emoji` (src/lab-manager/main.py:287-294). -/
def emojiMark (stepOkFlag timeOkFlag : Bool) : String :=
  if stepOkFlag && timeOkFlag then "✅✅"
  else if stepOkFlag && !timeOkFlag then "✅❌"
  else if !stepOkFlag && timeOkFlag then "❌✅"
  else "❌❌"

/-- The truncation applied by `_format_correction_output` before any
comparison (src/lab-manager/main.py:245-246): sequences longer than one
element lose their final pair. -/
def truncSeq (seq : List PairV) : List PairV :=
  if 1 < seq.length then seq.dropLast else seq

/-- The early-return text of `_format_correction_output` for an empty
pattern or sequence (src/lab-manager/main.py:250-257). -/
def emptyReason (patternLen seqLen : Nat) : String :=
  let reason :=
    (if patternLen = 0 then ["Padrão vazio"] else [])
      ++ (if seqLen = 0 then ["Sequência vazia"] else [])
  "não\n\n0\n\n" ++ pyJoin " e " reason

/-- The per-cycle inner loop of `_format_correction_output`
(src/lab-manager/main.py:298-310): the cycle matches when at every offset the
observed value is not invalid and both `_step_ok` and `_time_ok` hold. -/
def cycleMatches (pattern seq : List PairV) (bitCount cycle : Nat) : Bool :=
  (List.range pattern.length).all fun offset =>
    match pattern[offset]?, seq[cycle * pattern.length + offset]? with
    | some (expStep, expTime), some (actStep, actTime) =>
        !value_invalid bitCount actStep && (step_ok expStep actStep && time_ok expTime actTime)
    | _, _ => false

/-- The `complete_occurrences` counter of `_format_correction_output`
(src/lab-manager/main.py:296-310): the number of matching cycles among the
first `seq_len // pattern_len` pattern-aligned cycles. -/
def countOccurrences (pattern seq : List PairV) (bitCount : Nat) : Nat :=
  ((List.range (seq.length / pattern.length)).filter
    (fun cycle => cycleMatches pattern seq bitCount cycle)).length

/-- One entry of the `table_rows` list built by `_format_correction_output`
(src/lab-manager/main.py:324-330). -/
structure TableRow where
  index : Nat
  mismatchIndex : Nat
  actStep : PyVal
  actTime : PyVal
  stepMatch : Bool
  timeMatch : Bool
deriving DecidableEq, Repr

/-- The `table_rows` list of `_format_correction_output`
(src/lab-manager/main.py:324-330): one row per element of the (truncated)
observed sequence, compared against the pattern element at the index modulo
the pattern length. -/
def tableRows (pattern seq : List PairV) : List TableRow :=
  seq.enum.map fun p =>
    let expPair := pattern.getD (p.1 % pattern.length) (PyVal.none, PyVal.none)
    { index := p.1
      mismatchIndex := p.1 % pattern.length
      actStep := p.2.1
      actTime := p.2.2
      stepMatch := step_ok expPair.1 p.2.1
      timeMatch := time_ok expPair.2 p.2.2 }

/-- The markdown table header emitted by `_format_correction_output`
(src/lab-manager/main.py:322). -/
def tableHeader : String :=
  "| Padrão do professor até o erro | Sequência do aluno até o erro | Valor incorreto |"

/-- One markdown table line of the report (src/lab-manager/main.py:332-343). -/
def tableLine (pattern : List PairV) (r : TableRow) : String :=
  let expPair := pattern.getD r.mismatchIndex (PyVal.none, PyVal.none)
  let professor := format_value_time expPair.1 expPair.2
  let student := format_value_time r.actStep r.actTime ++ " " ++ emojiMark r.stepMatch r.timeMatch
  let incorrect :=
    if r.stepMatch && r.timeMatch then ""
    else if r.stepMatch && !r.timeMatch then r.actTime.toStr
    else if !r.stepMatch && r.timeMatch then r.actStep.toStr
    else r.actStep.toStr ++ "; " ++ r.actTime.toStr
  "| " ++ professor ++ " | " ++ student ++ " | " ++ incorrect ++ " |"

/-- The rendered difference line for I/O slot `i`
(src/lab-manager/main.py:365-368). -/
def diffLine (ioNames : List String) (i : Nat) (expBit actBit : Int) : String :=
  let ioName := ioNames.getD i ("io_" ++ toString i)
  let expState := if expBit ≠ 0 then "ligado" else "desligado"
  let actState := if actBit ≠ 0 then "ligado" else "desligado"
  ioName ++ ": " ++ expState ++ " → " ++ actState

/-- The `diff_ios` list of `_format_correction_output`
(src/lab-manager/main.py:359-368): for each I/O slot `i`, the bit at position
`bit_count - 1 - i` of expected and actual values is compared, and a line is
produced when the bits differ. -/
def diffIos (bitCount : Nat) (ioNames : List String) (expInt actInt : Option Int) : List String :=
  (List.range bitCount).filterMap fun i =>
    let bitIndex := bitCount - 1 - i
    let expBit := pyBitOpt expInt bitIndex
    let actBit := pyBitOpt actInt bitIndex
    if expBit ≠ actBit then some (diffLine ioNames i expBit actBit) else Option.none

/-- The explanation block appended for one table row in the second loop of
`_format_correction_output` (src/lab-manager/main.py:346-373): nothing for a
fully matching row; otherwise the incorrect value with its bit decoding and
per-I/O differences when the step mismatches, and a time line when the
duration mismatches. -/
def rowExplanation (pattern : List PairV) (ioNames : List String) (r : TableRow) : List String :=
  if r.stepMatch && r.timeMatch then []
  else
    let bitCount := ioNames.length
    let expPair := pattern.getD r.mismatchIndex (PyVal.none, PyVal.none)
    let stepLines :=
      if !r.stepMatch then
        let expInt := truncate_int expPair.1
        let actInt := truncate_int r.actStep
        let bitsExpected := format_bits expInt bitCount
        let bitsActual := format_bits actInt bitCount
        ["Valor incorreto: " ++ r.actStep.toStr]
          ++ (if bitsActual ≠ "" then ["- Decodificação em bits: " ++ bitsActual] else [])
          ++ (if bitsExpected ≠ "" then (diffIos bitCount ioNames expInt actInt).map (fun item => "- " ++ item) else [])
      else []
    let timeLines := if !r.timeMatch then ["Tempo: " ++ r.actTime.toStr ++ " ❌"] else []
    stepLines ++ timeLines

/-- The full list of report lines built by `_format_correction_output` when
the sequence is not approved (src/lab-manager/main.py:317-375). -/
def reportLines (pattern seq : List PairV) (ioNames : List String) (occ : Nat) : List String :=
  ["não", "", toString occ, "", tableHeader]
    ++ (tableRows pattern seq).map (tableLine pattern)
    ++ [""]
    ++ (tableRows pattern seq).flatMap (rowExplanation pattern ioNames)

/-- The body of `_format_correction_output` after the sequence truncation
(src/lab-manager/main.py:248-375): empty-input early return, approval when at
least two aligned cycles match, otherwise the full report. -/
def correctionBody (pattern seq : List PairV) (ioNames : List String) : String :=
  if pattern.length = 0 ∨ seq.length = 0 then emptyReason pattern.length seq.length
  else
    let occ := countOccurrences pattern seq ioNames.length
    if 2 ≤ occ then "sim\n\n" ++ toString occ
    else pyJoin "\n" (reportLines pattern seq ioNames occ)

/-- Embedding of `_format_correction_output` (src/lab-manager/main.py:238-375):
drop the final observed pair when more than one is present, then run the
comparison body. -/
def format_correction_output (patternPairs seqPairs : List PairV) (ioNames : List String) : String :=
  correctionBody patternPairs (truncSeq seqPairs) ioNames

/-- Boolean test that `pre` is an initial segment of `s`, used to state
"the output begins with" properties. -/
def strBeginsWith (pre s : String) : Bool :=
  pre.data.isPrefixOf s.data

/-- Spec-side notion for C1, following the specification's words: the
reference pattern occurs completely and contiguously at position `pos` of the
observed sequence, each pattern element matching the corresponding observed
element under the routine's value and duration comparisons. -/
def patternOccursAt (pattern seq : List PairV) (pos : Nat) : Bool :=
  decide (pos + pattern.length ≤ seq.length) &&
    (List.range pattern.length).all fun k =>
      match pattern[k]?, seq[pos + k]? with
      | some (expStep, expTime), some (actStep, actTime) =>
          step_ok expStep actStep && time_ok expTime actTime
      | _, _ => false

/-- Spec-side notion for the amended C1: a complete occurrence of the pattern
at the pattern-aligned cycle `c` of the (already truncated) sequence, with
every observed value valid for the I/O count — exactly what the routine's
cycle scan checks. -/
def alignedCycleOccurs (pattern seq : List PairV) (bitCount c : Nat) : Bool :=
  decide ((c + 1) * pattern.length ≤ seq.length) && cycleMatches pattern seq bitCount c

/-- A row of the `plant_config` table (src/src/db_dao.py:75-85); the SQLite
schema declares `experiment_name` `UNIQUE` and `id` as the autoincrement
primary key. -/
structure PlantRow where
  id : Nat
  experiment_name : String
  ip_profinet : String
  rack_profinet : Int
  slot_profinet : Int
  db_number_profinet : Int
  num_of_inputs : Int
  num_of_outputs : Int
deriving DecidableEq, Repr

/-- A row of the `ground_truth_patterns` table (src/src/db_dao.py:87-95);
`experiment_name` is `UNIQUE`. -/
structure GroundTruthRow where
  id : Nat
  experiment_name : String
  ground_truth : String
deriving DecidableEq, Repr

/-- A row of the `ai_settings` table (src/src/db_dao.py:96-105); the
`updated_at` timestamp column is not modelled (wall-clock time). -/
structure AiSettingsRow where
  id : Nat
  source : String
  encrypted_key : Option String
deriving DecidableEq, Repr

/-- A row of the `dadoscoletados2` table (src/src/db_dao.py:106-120); columns
never written by the two insert paths stay `none`. -/
structure CollectedRow where
  id : Nat
  experiment_id : Int
  step : String
  pulse_train : String
  pulse_value : Rat
  experimentName : String
  timeToChange : Rat
  duration : Option Rat
deriving DecidableEq, Repr

/-- A row of the `dadoscoletados_summary` table (src/src/db_dao.py:121-129). -/
structure SummaryRow where
  id : Nat
  experiment_id : Int
  pattern : String
deriving DecidableEq, Repr

/-- The database state visible to `RemoteLaboratoryDAO`: the five tables of
`_ensure_sqlite_schema` (src/src/db_dao.py:69-132) plus one autoincrement
counter per table. -/
structure DBState where
  plant_config : List PlantRow
  ground_truth_patterns : List GroundTruthRow
  ai_settings : List AiSettingsRow
  dadoscoletados2 : List CollectedRow
  dadoscoletados_summary : List SummaryRow
  nextPlantId : Nat
  nextGroundTruthId : Nat
  nextAiId : Nat
  nextCollectedId : Nat
  nextSummaryId : Nat
deriving Repr

/-- Embedding of `create_plant_config` (src/src/db_dao.py:440-482): a plain
`INSERT`; when the `UNIQUE(experiment_name)` constraint is violated the
driver raises, the handler prints and returns `None`, and the uncommitted
insert is discarded.  Otherwise the new row is appended and `lastrowid` is
returned. -/
def create_plant_config (name ip : String) (rack slot dbn ni no : Int)
    (st : DBState) : Option Nat × DBState :=
  if st.plant_config.any (fun r => r.experiment_name = name) then (Option.none, st)
  else
    (some st.nextPlantId,
      { st with
        plant_config := st.plant_config ++
          [{ id := st.nextPlantId, experiment_name := name, ip_profinet := ip,
             rack_profinet := rack, slot_profinet := slot, db_number_profinet := dbn,
             num_of_inputs := ni, num_of_outputs := no }]
        nextPlantId := st.nextPlantId + 1 })

/-- Embedding of `update_plant_config` (src/src/db_dao.py:484-533): an
`UPDATE ... WHERE id = %s`; renaming an existing row to another row's
`experiment_name` violates the `UNIQUE` constraint, the handler returns `0`
and the state is unchanged; otherwise every row with the id is rewritten and
the rowcount is returned. -/
def update_plant_config (configId : Nat) (name ip : String) (rack slot dbn ni no : Int)
    (st : DBState) : Nat × DBState :=
  if st.plant_config.any (fun r => r.id = configId) &&
      st.plant_config.any (fun r => r.id ≠ configId && r.experiment_name = name) then
    (0, st)
  else
    ((st.plant_config.filter (fun r => r.id = configId)).length,
      { st with
        plant_config := st.plant_config.map fun r =>
          if r.id = configId then
            { id := r.id, experiment_name := name, ip_profinet := ip,
              rack_profinet := rack, slot_profinet := slot, db_number_profinet := dbn,
              num_of_inputs := ni, num_of_outputs := no }
          else r })

/-- Embedding of `delete_plant_config` (src/src/db_dao.py:535-551): delete by
id, returning whether a row was removed. -/
def delete_plant_config (configId : Nat) (st : DBState) : Bool × DBState :=
  ((st.plant_config.filter (fun r => r.id = configId)).length > 0,
    { st with plant_config := st.plant_config.filter (fun r => r.id ≠ configId) })

/-- Embedding of `create_ground_truth_pattern` (src/src/db_dao.py:635-658):
`INSERT` guarded by the `UNIQUE(experiment_name)` constraint, like
`create_plant_config`. -/
def create_ground_truth_pattern (name gt : String) (st : DBState) : Option Nat × DBState :=
  if st.ground_truth_patterns.any (fun r => r.experiment_name = name) then (Option.none, st)
  else
    (some st.nextGroundTruthId,
      { st with
        ground_truth_patterns := st.ground_truth_patterns ++
          [{ id := st.nextGroundTruthId, experiment_name := name, ground_truth := gt }]
        nextGroundTruthId := st.nextGroundTruthId + 1 })

/-- Embedding of `update_ground_truth_pattern` (src/src/db_dao.py:660-685):
`UPDATE ... WHERE id = %s` under the `UNIQUE(experiment_name)` constraint. -/
def update_ground_truth_pattern (patternId : Nat) (name gt : String)
    (st : DBState) : Nat × DBState :=
  if st.ground_truth_patterns.any (fun r => r.id = patternId) &&
      st.ground_truth_patterns.any (fun r => r.id ≠ patternId && r.experiment_name = name) then
    (0, st)
  else
    ((st.ground_truth_patterns.filter (fun r => r.id = patternId)).length,
      { st with
        ground_truth_patterns := st.ground_truth_patterns.map fun r =>
          if r.id = patternId then
            { id := r.id, experiment_name := name, ground_truth := gt }
          else r })

/-- Embedding of `delete_ground_truth_pattern` (src/src/db_dao.py:687-707). -/
def delete_ground_truth_pattern (patternId : Nat) (st : DBState) : Bool × DBState :=
  ((st.ground_truth_patterns.filter (fun r => r.id = patternId)).length > 0,
    { st with ground_truth_patterns := st.ground_truth_patterns.filter (fun r => r.id ≠ patternId) })

/-- Embedding of `save_ai_key_settings` (src/src/db_dao.py:713-749),
parameterised by the Fernet encryption (external `cryptography` dependency).
An invalid source, or a manual source without a key, raises `ValueError`
before any database access (modelled as `none`); otherwise the table is
emptied (`DELETE FROM ai_settings`) and exactly one new row is inserted,
returning `True`. -/
def save_ai_key_settings (encrypt : String → String) (source : String)
    (rawKey : Option String) (st : DBState) : Option Bool × DBState :=
  if source ≠ "system_variable" ∧ source ≠ "manual" then (Option.none, st)
  else if source = "manual" ∧ (rawKey = Option.none ∨ rawKey = some "") then (Option.none, st)
  else
    let encrypted : Option String :=
      match rawKey with
      | some k => if source = "manual" ∧ k ≠ "" then some (encrypt k) else Option.none
      | Option.none => Option.none
    (some true,
      { st with
        ai_settings := [{ id := st.nextAiId, source := source, encrypted_key := encrypted }]
        nextAiId := st.nextAiId + 1 })

/-- Embedding of `clear_ai_key_settings` (src/src/db_dao.py:803-818):
`DELETE FROM ai_settings` with no filter. -/
def clear_ai_key_settings (st : DBState) : DBState :=
  { st with ai_settings := [] }

/-- Embedding of `insert_data_into_database` (src/src/db_dao.py:247-271):
append one collected row; the `duration` and `time_stamp` columns are not in
the insert list and stay NULL. -/
def insert_data_into_database (experimentNumber : Int) (step : Int)
    (pulseTrain : String) (pulseValue : Rat) (timeToChange : Rat)
    (experimentName : String) (st : DBState) : DBState :=
  { st with
    dadoscoletados2 := st.dadoscoletados2 ++
      [{ id := st.nextCollectedId, experiment_id := experimentNumber,
         step := toString step, pulse_train := pulseTrain, pulse_value := pulseValue,
         experimentName := experimentName, timeToChange := timeToChange,
         duration := Option.none }]
    nextCollectedId := st.nextCollectedId + 1 }

/-- Embedding of `insert_data_with_duration` (src/src/db_dao.py:855-897):
append one collected row carrying a duration. -/
def insert_data_with_duration (experimentNumber : Int) (step : Int)
    (pulseTrain : String) (pulseValue : Rat) (timeToChange : Rat)
    (experimentName : String) (duration : Rat) (st : DBState) : DBState :=
  { st with
    dadoscoletados2 := st.dadoscoletados2 ++
      [{ id := st.nextCollectedId, experiment_id := experimentNumber,
         step := toString step, pulse_train := pulseTrain, pulse_value := pulseValue,
         experimentName := experimentName, timeToChange := timeToChange,
         duration := some duration }]
    nextCollectedId := st.nextCollectedId + 1 }

/-- Embedding of `insert_pattern` (src/src/db_dao.py:311-326): append one
summary row. -/
def insert_pattern (experimentId : Int) (pat : String) (st : DBState) : DBState :=
  { st with
    dadoscoletados_summary := st.dadoscoletados_summary ++
      [{ id := st.nextSummaryId, experiment_id := experimentId, pattern := pat }]
    nextSummaryId := st.nextSummaryId + 1 }

/-- One call to a public `RemoteLaboratoryDAO` method (src/src/db_dao.py),
with the arguments that matter for the database state.  Read-only methods are
included so that "every DAO operation" ranges over the whole interface. -/
inductive DAOOp where
  | getVerificacaoFoto
  | insertDataIntoDatabase (experimentNumber : Int) (step : Int) (pulseTrain : String)
      (pulseValue : Rat) (timeToChange : Rat) (experimentName : String)
  | getLastExperimentId
  | getPulseValuesByExperiment (experimentId : Int)
  | insertPattern (experimentId : Int) (pat : String)
  | getPatternsByExperiment (experimentId : Int)
  | getPlantConfig (experimentName : String)
  | listPlantConfigs
  | listFullPlantConfigs
  | getPlantConfigById (configId : Nat)
  | createPlantConfig (experimentName ipProfinet : String)
      (rackProfinet slotProfinet dbNumberProfinet numInputs numOutputs : Int)
  | updatePlantConfig (configId : Nat) (experimentName ipProfinet : String)
      (rackProfinet slotProfinet dbNumberProfinet numInputs numOutputs : Int)
  | deletePlantConfig (configId : Nat)
  | listGroundTruthPatterns
  | getGroundTruthPatternById (patternId : Nat)
  | getGroundTruthByExperiment (experimentName : String)
  | createGroundTruthPattern (experimentName groundTruth : String)
  | updateGroundTruthPattern (patternId : Nat) (experimentName groundTruth : String)
  | deleteGroundTruthPattern (patternId : Nat)
  | saveAiKeySettings (source : String) (rawKey : Option String)
  | getAiKeySettings
  | getManualAiKey
  | loadManualAiKey
  | clearAiKeySettings
  | listCollectedData (limit : Nat)
  | insertDataWithDuration (experimentNumber : Int) (step : Int) (pulseTrain : String)
      (pulseValue : Rat) (timeToChange : Rat) (experimentName : String) (duration : Rat)

/-- The state transition of one DAO call.  `SELECT`-only methods leave the
state unchanged; the others delegate to the embedded write operations.
`encrypt` is the Fernet encryption used by `save_ai_key_settings`. -/
def applyOp (encrypt : String → String) (op : DAOOp) (st : DBState) : DBState :=
  match op with
  | DAOOp.getVerificacaoFoto => st
  | DAOOp.insertDataIntoDatabase en s pt pv tc name => insert_data_into_database en s pt pv tc name st
  | DAOOp.getLastExperimentId => st
  | DAOOp.getPulseValuesByExperiment _ => st
  | DAOOp.insertPattern eid pat => insert_pattern eid pat st
  | DAOOp.getPatternsByExperiment _ => st
  | DAOOp.getPlantConfig _ => st
  | DAOOp.listPlantConfigs => st
  | DAOOp.listFullPlantConfigs => st
  | DAOOp.getPlantConfigById _ => st
  | DAOOp.createPlantConfig name ip rack slot dbn ni no => (create_plant_config name ip rack slot dbn ni no st).2
  | DAOOp.updatePlantConfig cid name ip rack slot dbn ni no => (update_plant_config cid name ip rack slot dbn ni no st).2
  | DAOOp.deletePlantConfig cid => (delete_plant_config cid st).2
  | DAOOp.listGroundTruthPatterns => st
  | DAOOp.getGroundTruthPatternById _ => st
  | DAOOp.getGroundTruthByExperiment _ => st
  | DAOOp.createGroundTruthPattern name gt => (create_ground_truth_pattern name gt st).2
  | DAOOp.updateGroundTruthPattern pid name gt => (update_ground_truth_pattern pid name gt st).2
  | DAOOp.deleteGroundTruthPattern pid => (delete_ground_truth_pattern pid st).2
  | DAOOp.saveAiKeySettings source rawKey => (save_ai_key_settings encrypt source rawKey st).2
  | DAOOp.getAiKeySettings => st
  | DAOOp.getManualAiKey => st
  | DAOOp.loadManualAiKey => st
  | DAOOp.clearAiKeySettings => clear_ai_key_settings st
  | DAOOp.listCollectedData _ => st
  | DAOOp.insertDataWithDuration en s pt pv tc name d => insert_data_with_duration en s pt pv tc name d st

/-- A sequence of DAO calls applied in order. -/
def applyOps (encrypt : String → String) (ops : List DAOOp) (st : DBState) : DBState :=
  ops.foldl (fun s op => applyOp encrypt op s) st

/-- The database invariant behind experiment-name uniqueness: in
`plant_config` and `ground_truth_patterns`, ids are pairwise distinct and
below the autoincrement counter, and experiment names are pairwise
distinct. -/
def dbInvariant (st : DBState) : Prop :=
  (st.plant_config.map PlantRow.id).Nodup ∧
  (st.plant_config.map PlantRow.experiment_name).Nodup ∧
  (∀ r ∈ st.plant_config, r.id < st.nextPlantId) ∧
  (st.ground_truth_patterns.map GroundTruthRow.id).Nodup ∧
  (st.ground_truth_patterns.map GroundTruthRow.experiment_name).Nodup ∧
  (∀ r ∈ st.ground_truth_patterns, r.id < st.nextGroundTruthId)

/-- Python `str.replace(old, new)` on character lists, for a nonempty `old`:
scan left to right, replacing non-overlapping occurrences.  (CPython's
special case for an empty `old` is outside this fragment; `_prepare_query`
only ever replaces `"%s"`.) -/
def pyReplace (pat rep : List Char) : List Char → List Char
  | [] => []
  | c :: rest =>
    if h : pat ≠ [] ∧ pat.isPrefixOf (c :: rest) then
      rep ++ pyReplace pat rep ((c :: rest).drop pat.length)
    else
      c :: pyReplace pat rep rest
termination_by s => s.length
decreasing_by
  · simp only [List.length_drop, List.length_cons]
    have : pat.length ≠ 0 := fun hz => h.1 (List.length_eq_zero.mp hz)
    omega
  · simp

/-- Python `str.replace` lifted to strings. -/
def pyReplaceStr (s pat rep : String) : String :=
  String.mk (pyReplace pat.data rep.data s.data)

/-- Embedding of `_prepare_query` (src/src/db_dao.py:191-194): on the sqlite
backend every `"%s"` placeholder is rewritten to `"?"`; any other backend
gets the query unchanged. -/
def prepare_query (dbBackend : String) (query : String) : String :=
  if dbBackend = "sqlite" then pyReplaceStr query "%s" "?" else query

/-- Substring test on character lists: `pat` occurs contiguously in `s`. -/
def containsSub (pat : List Char) : List Char → Bool
  | [] => pat.isEmpty
  | c :: rest => pat.isPrefixOf (c :: rest) || containsSub pat rest

lemma truncSeq_concat (s : List PairV) (x : PairV) (hs : s ≠ []) :
    truncSeq (s ++ [x]) = s := by
  have hlen : 1 < (s ++ [x]).length := by
    have := List.length_pos.mpr hs
    simp only [List.length_append, List.length_cons, List.length_nil]
    omega
  unfold truncSeq
  rw [if_pos hlen, List.dropLast_concat]

/-- C3 counterexample: the correction routine's duration comparison is not
acceptance within a fixed tolerance.  Durations `1.0` and `1.9` (`0.9`
apart) are accepted by `_time_ok`, while `1.9` and `2.0` (`0.1` apart) are
rejected, so no fixed tolerance `t` can describe it: the first pair forces
`9/10 ≤ t`, the second forces `t < 1/10`. -/
theorem time_ok_not_tolerance_based :
    ¬ ∃ t : Rat, ∀ e a : Rat,
      (time_ok (PyVal.float e) (PyVal.float a) = true ↔ |e - a| ≤ t) := by
  rintro ⟨t, h⟩
  have hn : ((19 : Rat) / 10).num = 19 := by norm_num
  have hd : ((19 : Rat) / 10).den = 10 := by norm_num
  have hacc : time_ok (PyVal.float 1) (PyVal.float (19 / 10)) = true := by
    simp [time_ok, truncate_int, ratTrunc, hn, hd]
  have hrej : time_ok (PyVal.float (19 / 10)) (PyVal.float 2) = false := by
    simp [time_ok, truncate_int, ratTrunc, hn, hd]
  have h1 : |(1 : Rat) - 19 / 10| ≤ t := (h 1 (19 / 10)).mp hacc
  have h2 : ¬ |(19 : Rat) / 10 - 2| ≤ t := by
    intro hc
    have := (h (19 / 10) 2).mpr hc
    rw [hrej] at this
    exact Bool.false_ne_true this
  have e1 : (1 : Rat) - 19 / 10 = -(9 / 10) := by norm_num
  have e2 : (19 : Rat) / 10 - 2 = -(1 / 10) := by norm_num
  rw [e1, abs_neg, abs_of_nonneg (by norm_num : (0 : Rat) ≤ 9 / 10)] at h1
  rw [e2, abs_neg, abs_of_nonneg (by norm_num : (0 : Rat) ≤ 1 / 10)] at h2
  exact h2 (le_trans (by norm_num : (1 : Rat) / 10 ≤ 9 / 10) h1)

/-- C3 amended: for every pair of durations, `_time_ok` accepts exactly when
both durations have an integer reading (with floats truncated toward zero)
and the two integer truncations are equal; in particular, on floats it is
plain equality of truncations, not a tolerance band. -/
theorem time_ok_is_truncated_equality :
    (∀ e a : PyVal,
        time_ok e a = true ↔ ∃ z : Int, truncate_int e = some z ∧ truncate_int a = some z)
  ∧ ∀ e a : Rat,
      time_ok (PyVal.float e) (PyVal.float a) = true ↔ ratTrunc e = ratTrunc a := by
  constructor
  · intro e a
    unfold time_ok
    cases he : truncate_int e with
    | none => simp
    | some z1 =>
      cases ha : truncate_int a with
      | none => simp
      | some z2 =>
        simp only [decide_eq_true_eq]
        constructor
        · rintro rfl
          exact ⟨z1, rfl, rfl⟩
        · rintro ⟨z, hz1, hz2⟩
          cases hz1
          cases hz2
          rfl
  · intro e a
    simp only [time_ok, truncate_int, decide_eq_true_eq]

/-- C9: the correction routine discards the final observed pair of any
sequence with more than one element before all comparisons — the output is
insensitive to the value of the last pair — while a one-element sequence is
kept whole. -/
theorem last_element_discarded :
    (∀ (pattern s : List PairV) (ioNames : List String) (x y : PairV), s ≠ [] →
        format_correction_output pattern (s ++ [x]) ioNames
          = format_correction_output pattern (s ++ [y]) ioNames)
  ∧ ∀ (pattern : List PairV) (ioNames : List String) (x : PairV),
      truncSeq [x] = [x] ∧
      format_correction_output pattern [x] ioNames = correctionBody pattern [x] ioNames := by
  constructor
  · intro pattern s io x y hs
    unfold format_correction_output
    rw [truncSeq_concat s x hs, truncSeq_concat s y hs]
  · intro pattern io x
    exact ⟨rfl, rfl⟩

/-- Witness for `last_element_discarded` at a concrete input. -/
theorem last_element_discarded_witness :
    ([(PyVal.int 1, PyVal.int 1)] : List PairV) ≠ [] ∧
    format_correction_output [(PyVal.int 1, PyVal.int 1)]
        ([(PyVal.int 1, PyVal.int 1)] ++ [(PyVal.int 7, PyVal.int 7)]) []
      = format_correction_output [(PyVal.int 1, PyVal.int 1)]
        ([(PyVal.int 1, PyVal.int 1)] ++ [(PyVal.int 9, PyVal.int 9)]) [] :=
  ⟨by decide, last_element_discarded.1 _ _ _ _ _ (by decide)⟩

lemma value_invalid_false_iff (n : Nat) (hn : n ≠ 0) (a : PyVal) :
    value_invalid n a = false ↔ ∃ v : Int, truncate_int a = some v ∧ v ≤ 2 ^ n - 1 := by
  unfold value_invalid
  rw [if_neg hn]
  cases ht : truncate_int a with
  | none => simp
  | some v =>
    simp only [decide_eq_false_iff_not, not_lt]
    constructor
    · intro h
      exact ⟨v, rfl, h⟩
    · rintro ⟨w, hw, hle⟩
      cases hw
      exact hle

/-- C10: a pattern-aligned cycle is counted as a complete occurrence only if
every observed step value in it has an integer reading of at most
`2 ^ n - 1`, `n` being the number of I/O names; a value that is invalid for
the I/O count makes its cycle fail; and with an empty I/O list no value is
ever invalid. -/
theorem cycle_requires_valid_values :
    (∀ (pattern seq : List PairV) (ioNames : List String) (c : Nat),
        ioNames ≠ [] →
        cycleMatches pattern seq ioNames.length c = true →
        ∀ k, k < pattern.length →
          ∀ a t : PyVal, seq[c * pattern.length + k]? = some (a, t) →
            ∃ v : Int, truncate_int a = some v ∧ v ≤ 2 ^ ioNames.length - 1)
  ∧ (∀ (pattern seq : List PairV) (ioNames : List String) (c k : Nat) (a t : PyVal),
        k < pattern.length →
        seq[c * pattern.length + k]? = some (a, t) →
        value_invalid ioNames.length a = true →
        cycleMatches pattern seq ioNames.length c = false)
  ∧ ∀ v : PyVal, value_invalid 0 v = false := by
  refine ⟨?_, ?_, ?_⟩
  · intro P S io c hio hc k hk a t hs
    have hn : io.length ≠ 0 := fun hz => hio (List.length_eq_zero.mp hz)
    unfold cycleMatches at hc
    have hstep := List.all_eq_true.mp hc k (List.mem_range.mpr hk)
    obtain ⟨ep, hep⟩ : ∃ p : PairV, P[k]? = some p := ⟨_, List.getElem?_eq_getElem hk⟩
    obtain ⟨es, et⟩ := ep
    rw [hep, hs] at hstep
    simp only [Bool.and_eq_true, Bool.not_eq_true'] at hstep
    exact (value_invalid_false_iff io.length hn a).mp hstep.1
  · intro P S io c k a t hk hs hinv
    cases hcm : cycleMatches P S io.length c with
    | false => rfl
    | true =>
      exfalso
      unfold cycleMatches at hcm
      have hstep := List.all_eq_true.mp hcm k (List.mem_range.mpr hk)
      obtain ⟨ep, hep⟩ : ∃ p : PairV, P[k]? = some p := ⟨_, List.getElem?_eq_getElem hk⟩
      obtain ⟨es, et⟩ := ep
      rw [hep, hs] at hstep
      simp only [Bool.and_eq_true, Bool.not_eq_true'] at hstep
      rw [hinv] at hstep
      simp at hstep
  · intro v
    unfold value_invalid
    rw [if_pos rfl]

/-- Witness for `cycle_requires_valid_values` at a concrete input. -/
theorem cycle_requires_valid_values_witness :
    (["in1"] : List String) ≠ [] ∧
    cycleMatches [((PyVal.int 1), PyVal.int 1)] [((PyVal.int 1), PyVal.int 1)] 1 0 = true ∧
    ∃ v : Int, truncate_int (PyVal.int 1) = some v ∧ v ≤ 2 ^ (["in1"] : List String).length - 1 :=
  ⟨by decide, by decide,
    cycle_requires_valid_values.1 [((PyVal.int 1), PyVal.int 1)] [((PyVal.int 1), PyVal.int 1)]
      ["in1"] 0 (by decide) (by decide) 0 (by decide) (PyVal.int 1) (PyVal.int 1) (by decide)⟩

lemma convert_data_eq_foldr (step : List Bool) :
    convert_data step =
      (step.foldr (fun elemento acc =>
        ((if elemento then acc.1 + acc.2 else acc.1), acc.2 * 2)) (0, 1)).1 := by
  unfold convert_data
  rw [List.foldl_reverse]

lemma convert_foldr_snd (step : List Bool) :
    (step.foldr (fun elemento acc =>
      ((if elemento then acc.1 + acc.2 else acc.1), acc.2 * 2)) (0, 1)).2
      = 2 ^ step.length := by
  induction step with
  | nil => rfl
  | cons b t ih => simp only [List.foldr_cons, List.length_cons, pow_succ, ih]

lemma convert_data_cons (b : Bool) (t : List Bool) :
    convert_data (b :: t) = (if b then 2 ^ t.length else 0) + convert_data t := by
  rw [convert_data_eq_foldr, convert_data_eq_foldr]
  simp only [List.foldr_cons]
  rw [show ((t.foldr (fun elemento acc =>
      ((if elemento then acc.1 + acc.2 else acc.1), acc.2 * 2)) (0, 1)).2)
      = 2 ^ t.length from convert_foldr_snd t]
  cases b <;> simp [Nat.add_comm]

lemma convert_data_lt (step : List Bool) : convert_data step < 2 ^ step.length := by
  induction step with
  | nil => simp [convert_data]
  | cons b t ih =>
    rw [convert_data_cons, List.length_cons, pow_succ]
    cases b
    · simp only [Bool.false_eq_true, if_false]
      omega
    · simp only [if_true]
      omega

lemma convert_data_sum (step : List Bool) :
    convert_data step =
      ∑ i ∈ Finset.range step.length,
        if step.getD i false then 2 ^ (step.length - 1 - i) else 0 := by
  induction step with
  | nil => rfl
  | cons b t ih =>
    rw [convert_data_cons, ih, List.length_cons, Finset.sum_range_succ']
    have h0 : (if (b :: t).getD 0 false then 2 ^ (t.length + 1 - 1 - 0) else 0)
        = if b then 2 ^ t.length else 0 := by
      simp
    rw [h0, Nat.add_comm]
    congr 1
    refine Finset.sum_congr rfl ?_
    intro i hi
    have hit : i < t.length := Finset.mem_range.mp hi
    rw [List.getD_cons_succ,
      show t.length + 1 - 1 - (i + 1) = t.length - 1 - i from by omega]

lemma convert_data_bit (step : List Bool) (i : Nat) (hi : i < step.length) :
    (convert_data step / 2 ^ (step.length - 1 - i)) % 2
      = if step.getD i false then 1 else 0 := by
  induction step generalizing i with
  | nil => exact absurd hi (Nat.not_lt_zero i)
  | cons b t ih =>
    rw [convert_data_cons]
    cases i with
    | zero =>
      rw [show (b :: t).length - 1 - 0 = t.length from by simp]
      have hlt := convert_data_lt t
      cases b
      · simp only [Bool.false_eq_true, if_false, List.getD_cons_zero, Nat.zero_add]
        rw [Nat.div_eq_of_lt hlt]
      · simp only [if_true, List.getD_cons_zero]
        rw [Nat.add_comm, Nat.add_div_right _ (Nat.pos_pow_of_pos t.length (by omega)),
          Nat.div_eq_of_lt hlt]
    | succ j =>
      have hj : j < t.length := Nat.succ_lt_succ_iff.mp hi
      rw [show (b :: t).length - 1 - (j + 1) = t.length - 1 - j from by
        simp only [List.length_cons]; omega]
      rw [List.getD_cons_succ]
      cases b
      · simpa using ih j hj
      · simp only [if_true]
        have hsplit : (2 : Nat) ^ t.length
            = 2 ^ (t.length - (t.length - 1 - j)) * 2 ^ (t.length - 1 - j) := by
          rw [← pow_add]
          congr 1
          omega
        rw [hsplit, Nat.add_comm,
          Nat.add_mul_div_right _ _ (Nat.pos_pow_of_pos (t.length - 1 - j) (by omega))]
        rw [show (2 : Nat) ^ (t.length - (t.length - 1 - j))
            = 2 ^ (t.length - (t.length - 1 - j) - 1) * 2 from by
          rw [← pow_succ]
          congr 1
          omega]
        rw [Nat.add_mul_mod_self_right]
        exact ih j hj

lemma pyBit_natCast (n k : Nat) : pyBit (n : Int) k = ((n / 2 ^ k % 2 : Nat) : Int) := by
  unfold pyBit
  rw [show ((2 : Int) ^ k) = ((2 ^ k : Nat) : Int) from by push_cast; ring]
  rw [Int.fdiv_eq_ediv _ (by positivity)]
  push_cast
  rfl

lemma pyBit_convert (step : List Bool) (i : Nat) (hi : i < step.length) :
    pyBit ((convert_data step : Nat) : Int) (step.length - 1 - i)
      = if step.getD i false then 1 else 0 := by
  rw [pyBit_natCast, convert_data_bit step i hi]
  cases h : step.getD i false <;> simp

/-- C4: `convert_data` encodes a bit-vector step MSB-first — the element at
index `i` carries weight `2 ^ (len - 1 - i)` — and the correction routine's
bit-level decoding uses the same convention: the bit compared for
`io_names[i]` is bit `len - 1 - i`, so decoding recovers exactly the
elements that differ, and each such difference yields its `diff_ios` line. -/
theorem convert_data_msb_first :
    (∀ step : List Bool,
        convert_data step =
          ∑ i ∈ Finset.range step.length,
            if step.getD i false then 2 ^ (step.length - 1 - i) else 0)
  ∧ (∀ (step : List Bool) (i : Nat), i < step.length →
        pyBit ((convert_data step : Nat) : Int) (step.length - 1 - i)
          = if step.getD i false then 1 else 0)
  ∧ ∀ (s1 s2 : List Bool) (ioNames : List String) (i : Nat),
      s1.length = ioNames.length → s2.length = ioNames.length → i < ioNames.length →
      ((pyBitOpt (some ((convert_data s1 : Nat) : Int)) (ioNames.length - 1 - i)
          ≠ pyBitOpt (some ((convert_data s2 : Nat) : Int)) (ioNames.length - 1 - i))
        ↔ s1.getD i false ≠ s2.getD i false)
      ∧ (s1.getD i false ≠ s2.getD i false →
          diffLine ioNames i
              (pyBitOpt (some ((convert_data s1 : Nat) : Int)) (ioNames.length - 1 - i))
              (pyBitOpt (some ((convert_data s2 : Nat) : Int)) (ioNames.length - 1 - i))
            ∈ diffIos ioNames.length ioNames
                (some ((convert_data s1 : Nat) : Int)) (some ((convert_data s2 : Nat) : Int))) := by
  refine ⟨convert_data_sum, fun step i hi => pyBit_convert step i hi, ?_⟩
  intro s1 s2 ioNames i h1 h2 hi
  have hb1 : pyBitOpt (some ((convert_data s1 : Nat) : Int)) (ioNames.length - 1 - i)
      = if s1.getD i false then 1 else 0 := by
    have := pyBit_convert s1 i (h1 ▸ hi)
    rw [h1] at this
    exact this
  have hb2 : pyBitOpt (some ((convert_data s2 : Nat) : Int)) (ioNames.length - 1 - i)
      = if s2.getD i false then 1 else 0 := by
    have := pyBit_convert s2 i (h2 ▸ hi)
    rw [h2] at this
    exact this
  have hiff : (pyBitOpt (some ((convert_data s1 : Nat) : Int)) (ioNames.length - 1 - i)
      ≠ pyBitOpt (some ((convert_data s2 : Nat) : Int)) (ioNames.length - 1 - i))
      ↔ s1.getD i false ≠ s2.getD i false := by
    rw [hb1, hb2]
    cases s1.getD i false <;> cases s2.getD i false <;> simp
  refine ⟨hiff, fun hne => ?_⟩
  unfold diffIos
  refine List.mem_filterMap.mpr ⟨i, List.mem_range.mpr hi, ?_⟩
  rw [if_pos (hiff.mpr hne)]

/-- Witness for `convert_data_msb_first` at a concrete input. -/
theorem convert_data_msb_first_witness :
    (0 : Nat) < ([true, false] : List Bool).length ∧
    pyBit ((convert_data [true, false] : Nat) : Int) (([true, false] : List Bool).length - 1 - 0)
      = if ([true, false] : List Bool).getD 0 false then 1 else 0 :=
  ⟨by decide, convert_data_msb_first.2.1 [true, false] 0 (by decide)⟩

lemma ps_isPrefixOf_iff (c : Char) (rest : List Char) :
    List.isPrefixOf ['%', 's'] (c :: rest) = true ↔ c = '%' ∧ ∃ t, rest = 's' :: t := by
  cases rest with
  | nil => simp [List.isPrefixOf]
  | cons d t =>
    simp only [List.isPrefixOf, Bool.and_eq_true, beq_iff_eq]
    constructor
    · rintro ⟨h1, h2, _⟩
      exact ⟨h1.symm, t, by rw [h2]⟩
    · rintro ⟨h1, t', ht⟩
      cases ht
      exact ⟨h1.symm, rfl, trivial⟩

lemma pyReplace_nil (pat rep : List Char) : pyReplace pat rep [] = [] := by
  simp [pyReplace]

lemma psRep_cons_match (t : List Char) :
    pyReplace ['%', 's'] ['?'] ('%' :: 's' :: t) = '?' :: pyReplace ['%', 's'] ['?'] t := by
  rw [pyReplace]
  rw [dif_pos ⟨by simp, by simp [List.isPrefixOf]⟩]
  rfl

lemma psRep_cons_nomatch (c : Char) (rest : List Char)
    (h : List.isPrefixOf ['%', 's'] (c :: rest) = false) :
    pyReplace ['%', 's'] ['?'] (c :: rest) = c :: pyReplace ['%', 's'] ['?'] rest := by
  rw [pyReplace]
  rw [dif_neg (fun hc => by rw [h] at hc; exact Bool.false_ne_true hc.2)]

lemma psRep_shape (c : Char) (rest : List Char) :
    (∃ x, pyReplace ['%', 's'] ['?'] (c :: rest) = '?' :: x)
    ∨ ∃ x, pyReplace ['%', 's'] ['?'] (c :: rest) = c :: x := by
  cases hm : List.isPrefixOf ['%', 's'] (c :: rest) with
  | true =>
    obtain ⟨hc, t, ht⟩ := (ps_isPrefixOf_iff c rest).mp hm
    subst hc
    subst ht
    exact Or.inl ⟨_, psRep_cons_match t⟩
  | false => exact Or.inr ⟨_, psRep_cons_nomatch c rest hm⟩

lemma psRep_no_occurrence (s : List Char) :
    containsSub ['%', 's'] (pyReplace ['%', 's'] ['?'] s) = false := by
  suffices H : ∀ (n : Nat) (s : List Char), s.length ≤ n →
      containsSub ['%', 's'] (pyReplace ['%', 's'] ['?'] s) = false from
    H s.length s le_rfl
  intro n
  induction n with
  | zero =>
    intro s hs
    rw [List.eq_nil_of_length_eq_zero (Nat.le_zero.mp hs)]
    simp [pyReplace, containsSub]
  | succ n ih =>
    intro s hs
    cases s with
    | nil => simp [pyReplace, containsSub]
    | cons c rest =>
      cases hm : List.isPrefixOf ['%', 's'] (c :: rest) with
      | true =>
        obtain ⟨hc, t, ht⟩ := (ps_isPrefixOf_iff c rest).mp hm
        subst hc
        subst ht
        rw [psRep_cons_match]
        have hrec : containsSub ['%', 's'] (pyReplace ['%', 's'] ['?'] t) = false := by
          refine ih t ?_
          simp only [List.length_cons] at hs
          omega
        simp only [containsSub, Bool.or_eq_false_iff]
        exact ⟨by simp [List.isPrefixOf], hrec⟩
      | false =>
        rw [psRep_cons_nomatch c rest hm]
        have hrec : containsSub ['%', 's'] (pyReplace ['%', 's'] ['?'] rest) = false := by
          refine ih rest ?_
          simp only [List.length_cons] at hs
          omega
        simp only [containsSub, Bool.or_eq_false_iff]
        refine ⟨?_, hrec⟩
        by_cases hc : c = '%'
        · subst hc
          have hrest : rest = [] ∨ ∃ d t, rest = d :: t ∧ d ≠ 's' := by
            cases rest with
            | nil => exact Or.inl rfl
            | cons d t =>
              refine Or.inr ⟨d, t, rfl, fun hd => ?_⟩
              subst hd
              rw [(ps_isPrefixOf_iff '%' ('s' :: t)).mpr ⟨rfl, t, rfl⟩] at hm
              exact Bool.false_ne_true hm.symm
          rcases hrest with hnil | ⟨d, t, hdt, hd⟩
          · subst hnil
            simp [pyReplace_nil, List.isPrefixOf]
          · subst hdt
            rcases psRep_shape d t with ⟨x, hx⟩ | ⟨x, hx⟩ <;> rw [hx] <;>
              simp [List.isPrefixOf, Ne.symm hd]
        · cases hx : pyReplace ['%', 's'] ['?'] rest <;>
            simp [List.isPrefixOf, Ne.symm hc]

lemma qRep_cons_match (x : List Char) :
    pyReplace ['?'] ['%', 's'] ('?' :: x) = '%' :: 's' :: pyReplace ['?'] ['%', 's'] x := by
  rw [pyReplace]
  rw [dif_pos ⟨by simp, by simp [List.isPrefixOf]⟩]
  rfl

lemma qRep_cons_nomatch (c : Char) (x : List Char) (hc : c ≠ '?') :
    pyReplace ['?'] ['%', 's'] (c :: x) = c :: pyReplace ['?'] ['%', 's'] x := by
  rw [pyReplace]
  refine dif_neg (fun hp => ?_)
  have := hp.2
  simp [List.isPrefixOf, Ne.symm hc] at this

lemma psRep_roundtrip (s : List Char) (hq : '?' ∉ s) :
    pyReplace ['?'] ['%', 's'] (pyReplace ['%', 's'] ['?'] s) = s := by
  suffices H : ∀ (n : Nat) (s : List Char), s.length ≤ n → '?' ∉ s →
      pyReplace ['?'] ['%', 's'] (pyReplace ['%', 's'] ['?'] s) = s from
    H s.length s le_rfl hq
  intro n
  induction n with
  | zero =>
    intro s hs _
    rw [List.eq_nil_of_length_eq_zero (Nat.le_zero.mp hs)]
    simp [pyReplace]
  | succ n ih =>
    intro s hs hq'
    cases s with
    | nil => simp [pyReplace]
    | cons c rest =>
      cases hm : List.isPrefixOf ['%', 's'] (c :: rest) with
      | true =>
        obtain ⟨hc, t, ht⟩ := (ps_isPrefixOf_iff c rest).mp hm
        subst hc
        subst ht
        rw [psRep_cons_match, qRep_cons_match]
        have hqt : '?' ∉ t := fun hmem => hq' (by simp [hmem])
        rw [ih t (by simp only [List.length_cons] at hs; omega) hqt]
      | false =>
        have hcq : c ≠ '?' := fun hc => hq' (by simp [hc])
        have hqrest : '?' ∉ rest := fun hmem => hq' (by simp [hmem])
        rw [psRep_cons_nomatch c rest hm, qRep_cons_nomatch c _ hcq,
          ih rest (by simp only [List.length_cons] at hs; omega) hqrest]

lemma psRep_id_of_no_occurrence (s : List Char) (h : containsSub ['%', 's'] s = false) :
    pyReplace ['%', 's'] ['?'] s = s := by
  induction s with
  | nil => simp [pyReplace]
  | cons c rest ih =>
    simp only [containsSub, Bool.or_eq_false_iff] at h
    rw [psRep_cons_nomatch c rest h.1, ih h.2]

/-- C7: on the sqlite backend `_prepare_query` rewrites every `"%s"`
placeholder to `"?"` — the result contains no `"%s"` occurrence, a query
without placeholders passes through unchanged, and (for queries that do not
already use `"?"`) the original query is recovered by substituting `"%s"`
back for each `"?"`, so the logical statement and its parameter order are
preserved — while every other backend receives the query text unchanged. -/
theorem prepare_query_placeholder_normalization :
    (∀ q : String, containsSub "%s".data (prepare_query "sqlite" q).data = false)
  ∧ (∀ backend q : String, backend ≠ "sqlite" → prepare_query backend q = q)
  ∧ (∀ q : String, containsSub "%s".data q.data = false → prepare_query "sqlite" q = q)
  ∧ ∀ q : String, '?' ∉ q.data →
      pyReplace "?".data "%s".data (prepare_query "sqlite" q).data = q.data := by
  refine ⟨?_, ?_, ?_, ?_⟩
  · intro q
    exact psRep_no_occurrence q.data
  · intro backend q hb
    unfold prepare_query
    rw [if_neg hb]
  · intro q h
    unfold prepare_query pyReplaceStr
    rw [if_pos rfl]
    cases q with
    | mk data => exact congrArg String.mk (psRep_id_of_no_occurrence data h)
  · intro q hq
    exact psRep_roundtrip q.data hq

/-- Witness for `prepare_query_placeholder_normalization` at concrete
queries. -/
theorem prepare_query_placeholder_normalization_witness :
    (("mysql" : String) ≠ "sqlite" ∧ prepare_query "mysql" "SELECT %s" = "SELECT %s") ∧
    (containsSub "%s".data "DELETE FROM ai_settings".data = false ∧
      prepare_query "sqlite" "DELETE FROM ai_settings" = "DELETE FROM ai_settings") ∧
    ('?' ∉ ("INSERT INTO t VALUES (%s, %s)" : String).data ∧
      pyReplace "?".data "%s".data
        (prepare_query "sqlite" "INSERT INTO t VALUES (%s, %s)").data
        = ("INSERT INTO t VALUES (%s, %s)" : String).data) :=
  ⟨⟨by decide, prepare_query_placeholder_normalization.2.1 "mysql" "SELECT %s" (by decide)⟩,
    ⟨by decide, prepare_query_placeholder_normalization.2.2.1 "DELETE FROM ai_settings" (by decide)⟩,
    ⟨by decide, prepare_query_placeholder_normalization.2.2.2 "INSERT INTO t VALUES (%s, %s)" (by decide)⟩⟩

/-- C6: after every successful `save_ai_key_settings` call the `ai_settings`
table holds exactly one row — carrying the given source and, for the manual
source, the encrypted key — regardless of how many rows it held before, and
`clear_ai_key_settings` leaves it with zero rows. -/
theorem ai_settings_singleton (encrypt : String → String) (st : DBState)
    (source : String) (rawKey : Option String)
    (hsrc : source = "system_variable" ∨ source = "manual")
    (hkey : source = "manual" → ∃ k, rawKey = some k ∧ k ≠ "") :
    (save_ai_key_settings encrypt source rawKey st).1 = some true ∧
    (save_ai_key_settings encrypt source rawKey st).2.ai_settings =
      [{ id := st.nextAiId, source := source,
         encrypted_key := if source = "manual" then rawKey.map encrypt else Option.none }] ∧
    ∀ st' : DBState, (clear_ai_key_settings st').ai_settings = [] := by
  have hclear : ∀ st' : DBState, (clear_ai_key_settings st').ai_settings = [] :=
    fun _ => rfl
  have hne : ("system_variable" : String) ≠ "manual" := by decide
  rcases hsrc with hs | hs
  · subst hs
    have hg1 : ¬ (("system_variable" : String) ≠ "system_variable"
        ∧ ("system_variable" : String) ≠ "manual") := fun h => h.1 rfl
    have hg2 : ¬ (("system_variable" : String) = "manual"
        ∧ (rawKey = Option.none ∨ rawKey = some "")) := fun h => hne h.1
    cases rawKey with
    | none => exact ⟨by simp [save_ai_key_settings, hg1, hg2],
        by simp [save_ai_key_settings, hg1, hg2, hne], hclear⟩
    | some k => exact ⟨by simp [save_ai_key_settings, hg1, hg2, hne],
        by simp [save_ai_key_settings, hg1, hg2, hne], hclear⟩
  · subst hs
    obtain ⟨k, hk, hkne⟩ := hkey rfl
    subst hk
    have hg1 : ¬ (("manual" : String) ≠ "system_variable"
        ∧ ("manual" : String) ≠ "manual") := fun h => h.2 rfl
    have hg2 : ¬ (("manual" : String) = "manual"
        ∧ (some k = Option.none ∨ some k = some "")) := by
      rintro ⟨-, hbad | hbad⟩
      · exact Option.noConfusion hbad
      · exact hkne (Option.some.inj hbad)
    exact ⟨by simp [save_ai_key_settings, hg1, hg2, hkne],
      by simp [save_ai_key_settings, hg1, hg2, hkne], hclear⟩

/-- Witness for `ai_settings_singleton` at a concrete input. -/
theorem ai_settings_singleton_witness :
    (("manual" : String) = "system_variable" ∨ ("manual" : String) = "manual") ∧
    (save_ai_key_settings (fun s => s) "manual" (some "k")
      ⟨[], [], [{ id := 0, source := "manual", encrypted_key := Option.none }], [], [], 0, 0, 7, 0, 0⟩).1
      = some true :=
  ⟨Or.inr rfl,
    (ai_settings_singleton (fun s => s)
      ⟨[], [], [{ id := 0, source := "manual", encrypted_key := Option.none }], [], [], 0, 0, 7, 0, 0⟩
      "manual" (some "k") (Or.inr rfl) (fun _ => ⟨"k", rfl, by decide⟩)).1⟩

/-- C8: the `dadoscoletados2` table is append-only — every single DAO
operation either leaves it unchanged or appends exactly one row, and after
any sequence of DAO calls the previously stored collected rows are still
present, unchanged and in order, as a prefix of the table. -/
theorem collected_rows_append_only (encrypt : String → String) :
    (∀ (op : DAOOp) (st : DBState),
        (applyOp encrypt op st).dadoscoletados2 = st.dadoscoletados2 ∨
        ∃ r : CollectedRow, (applyOp encrypt op st).dadoscoletados2 = st.dadoscoletados2 ++ [r])
  ∧ ∀ (ops : List DAOOp) (st : DBState),
      ∃ rest : List CollectedRow,
        (applyOps encrypt ops st).dadoscoletados2 = st.dadoscoletados2 ++ rest := by
  have hone : ∀ (op : DAOOp) (st : DBState),
      (applyOp encrypt op st).dadoscoletados2 = st.dadoscoletados2 ∨
      ∃ r : CollectedRow, (applyOp encrypt op st).dadoscoletados2 = st.dadoscoletados2 ++ [r] := by
    intro op st
    cases op <;>
      first
        | exact Or.inl rfl
        | exact Or.inr ⟨_, rfl⟩
        | (left
           simp only [applyOp, create_plant_config, update_plant_config,
             create_ground_truth_pattern, update_ground_truth_pattern,
             save_ai_key_settings]
           split <;> (try split) <;> rfl)
  refine ⟨hone, ?_⟩
  intro ops
  induction ops with
  | nil => exact fun st => ⟨[], by simp [applyOps]⟩
  | cons op rest ih =>
    intro st
    obtain ⟨r2, hr2⟩ := ih (applyOp encrypt op st)
    have hfold : applyOps encrypt (op :: rest) st = applyOps encrypt rest (applyOp encrypt op st) := by
      simp [applyOps]
    rcases hone op st with h | ⟨r, hr⟩
    · exact ⟨r2, by rw [hfold, hr2, h]⟩
    · exact ⟨[r] ++ r2, by rw [hfold, hr2, hr, List.append_assoc]⟩

lemma nodup_map_append_sing {α β : Type} (f : α → β) (l : List α) (x : α)
    (h : (l.map f).Nodup) (hx : f x ∉ l.map f) : ((l ++ [x]).map f).Nodup := by
  rw [List.map_append, List.nodup_append]
  refine ⟨h, List.nodup_singleton _, ?_⟩
  intro b hb hbx
  simp only [List.map_cons, List.map_nil, List.mem_singleton] at hbx
  subst hbx
  exact hx hb

lemma nodup_map_update {α : Type} (l : List α) (fid : α → Nat) (fnm : α → String)
    (u : α → α) (cid : Nat) (nm : String)
    (hupd : ∀ a, fid a = cid → fnm (u a) = nm)
    (hkeep : ∀ a, fid a ≠ cid → fnm (u a) = fnm a)
    (hids : (l.map fid).Nodup) (hnms : (l.map fnm).Nodup)
    (hno : (∃ a ∈ l, fid a = cid) → ∀ b ∈ l, fid b ≠ cid → fnm b ≠ nm) :
    ((l.map u).map fnm).Nodup := by
  rw [List.map_map]
  have hidsP : l.Pairwise (fun a b => fid a ≠ fid b) := List.pairwise_map.mp hids
  have hnmsP : l.Pairwise (fun a b => fnm a ≠ fnm b) := List.pairwise_map.mp hnms
  have hcomb := hidsP.and hnmsP
  refine List.pairwise_map.mpr ?_
  by_cases htgt : ∃ a ∈ l, fid a = cid
  · have hclash : ∀ b ∈ l, fid b ≠ cid → fnm b ≠ nm := hno htgt
    refine hcomb.imp_of_mem ?_
    intro a b ha hb hab
    simp only [Function.comp_apply]
    by_cases haid : fid a = cid <;> by_cases hbid : fid b = cid
    · exact absurd (haid.trans hbid.symm) hab.1
    · rw [hupd a haid, hkeep b hbid]
      exact fun hcontra => hclash b hb hbid hcontra.symm
    · rw [hkeep a haid, hupd b hbid]
      exact fun hcontra => hclash a ha haid hcontra
    · rw [hkeep a haid, hkeep b hbid]
      exact hab.2
  · refine hnmsP.imp_of_mem ?_
    intro a b ha hb hab
    simp only [Function.comp_apply]
    have haid : fid a ≠ cid := fun hc => htgt ⟨a, ha, hc⟩
    have hbid : fid b ≠ cid := fun hc => htgt ⟨b, hb, hc⟩
    rw [hkeep a haid, hkeep b hbid]
    exact hab

lemma create_plant_config_inv (name ip : String) (rack slot dbn ni no : Int)
    (st : DBState) (h : dbInvariant st) :
    dbInvariant (create_plant_config name ip rack slot dbn ni no st).2 := by
  obtain ⟨hpid, hpnm, hpb, hgid, hgnm, hgb⟩ := h
  unfold create_plant_config
  cases hdup : st.plant_config.any (fun r => r.experiment_name = name) with
  | true => exact ⟨hpid, hpnm, hpb, hgid, hgnm, hgb⟩
  | false =>
    simp only [Bool.false_eq_true, if_false]
    refine ⟨?_, ?_, ?_, hgid, hgnm, hgb⟩
    · refine nodup_map_append_sing _ _ _ hpid ?_
      intro hmem
      obtain ⟨r, hr, hrid⟩ := List.mem_map.mp hmem
      have hrid' : r.id = st.nextPlantId := hrid
      exact absurd hrid' (Nat.ne_of_lt (hpb r hr))
    · refine nodup_map_append_sing _ _ _ hpnm ?_
      intro hmem
      obtain ⟨r, hr, hrnm⟩ := List.mem_map.mp hmem
      have : ¬ ∃ x ∈ st.plant_config, decide (x.experiment_name = name) = true := by
        rw [← List.any_eq_true, hdup]
        simp
      exact this ⟨r, hr, by simp [hrnm]⟩
    · intro r hr
      rcases List.mem_append.mp hr with hl | hx
      · exact Nat.lt_succ_of_lt (hpb r hl)
      · simp only [List.mem_singleton] at hx
        subst hx
        exact Nat.lt_succ_self _

lemma update_plant_config_inv (configId : Nat) (name ip : String)
    (rack slot dbn ni no : Int) (st : DBState) (h : dbInvariant st) :
    dbInvariant (update_plant_config configId name ip rack slot dbn ni no st).2 := by
  obtain ⟨hpid, hpnm, hpb, hgid, hgnm, hgb⟩ := h
  unfold update_plant_config
  cases hviol : (st.plant_config.any (fun r => r.id = configId) &&
      st.plant_config.any (fun r => r.id ≠ configId && r.experiment_name = name)) with
  | true => exact ⟨hpid, hpnm, hpb, hgid, hgnm, hgb⟩
  | false =>
    simp only [Bool.false_eq_true, if_false]
    have hid_eq : ((st.plant_config.map fun r =>
        if r.id = configId then
          ({ id := r.id, experiment_name := name, ip_profinet := ip,
             rack_profinet := rack, slot_profinet := slot, db_number_profinet := dbn,
             num_of_inputs := ni, num_of_outputs := no } : PlantRow)
        else r).map PlantRow.id) = st.plant_config.map PlantRow.id := by
      rw [List.map_map]
      refine List.map_congr_left ?_
      intro r _
      simp only [Function.comp_apply]
      split <;> rfl
    refine ⟨?_, ?_, ?_, hgid, hgnm, hgb⟩
    · rw [hid_eq]
      exact hpid
    · refine nodup_map_update st.plant_config PlantRow.id PlantRow.experiment_name
        _ configId name ?_ ?_ hpid hpnm ?_
      · intro a ha
        simp [ha]
      · intro a ha
        simp [ha]
      · rintro ⟨a0, ha0, ha0id⟩ b hb hbid hbnm
        have h1 : st.plant_config.any (fun r => r.id = configId) = true :=
          List.any_eq_true.mpr ⟨a0, ha0, by simp [ha0id]⟩
        have h2 : st.plant_config.any (fun r => r.id ≠ configId && r.experiment_name = name)
            = true := List.any_eq_true.mpr ⟨b, hb, by simp [hbid, hbnm]⟩
        rw [h1, h2] at hviol
        simp at hviol
    · intro r hr
      obtain ⟨r0, hr0, hr0u⟩ := List.mem_map.mp hr
      have : r.id = r0.id := by
        rw [← hr0u]
        split <;> rfl
      rw [this]
      exact hpb r0 hr0

lemma delete_plant_config_inv (configId : Nat) (st : DBState) (h : dbInvariant st) :
    dbInvariant (delete_plant_config configId st).2 := by
  obtain ⟨hpid, hpnm, hpb, hgid, hgnm, hgb⟩ := h
  have hsub := (List.filter_sublist (p := fun r => r.id ≠ configId) st.plant_config)
  refine ⟨((hsub.map PlantRow.id).nodup hpid),
    ((hsub.map PlantRow.experiment_name).nodup hpnm), ?_, hgid, hgnm, hgb⟩
  intro r hr
  exact hpb r (List.mem_of_mem_filter hr)

lemma create_ground_truth_pattern_inv (name gt : String) (st : DBState)
    (h : dbInvariant st) :
    dbInvariant (create_ground_truth_pattern name gt st).2 := by
  obtain ⟨hpid, hpnm, hpb, hgid, hgnm, hgb⟩ := h
  unfold create_ground_truth_pattern
  cases hdup : st.ground_truth_patterns.any (fun r => r.experiment_name = name) with
  | true => exact ⟨hpid, hpnm, hpb, hgid, hgnm, hgb⟩
  | false =>
    simp only [Bool.false_eq_true, if_false]
    refine ⟨hpid, hpnm, hpb, ?_, ?_, ?_⟩
    · refine nodup_map_append_sing _ _ _ hgid ?_
      intro hmem
      obtain ⟨r, hr, hrid⟩ := List.mem_map.mp hmem
      have hrid' : r.id = st.nextGroundTruthId := hrid
      exact absurd hrid' (Nat.ne_of_lt (hgb r hr))
    · refine nodup_map_append_sing _ _ _ hgnm ?_
      intro hmem
      obtain ⟨r, hr, hrnm⟩ := List.mem_map.mp hmem
      have : ¬ ∃ x ∈ st.ground_truth_patterns, decide (x.experiment_name = name) = true := by
        rw [← List.any_eq_true, hdup]
        simp
      exact this ⟨r, hr, by simp [hrnm]⟩
    · intro r hr
      rcases List.mem_append.mp hr with hl | hx
      · exact Nat.lt_succ_of_lt (hgb r hl)
      · simp only [List.mem_singleton] at hx
        subst hx
        exact Nat.lt_succ_self _

lemma update_ground_truth_pattern_inv (patternId : Nat) (name gt : String)
    (st : DBState) (h : dbInvariant st) :
    dbInvariant (update_ground_truth_pattern patternId name gt st).2 := by
  obtain ⟨hpid, hpnm, hpb, hgid, hgnm, hgb⟩ := h
  unfold update_ground_truth_pattern
  cases hviol : (st.ground_truth_patterns.any (fun r => r.id = patternId) &&
      st.ground_truth_patterns.any (fun r => r.id ≠ patternId && r.experiment_name = name)) with
  | true => exact ⟨hpid, hpnm, hpb, hgid, hgnm, hgb⟩
  | false =>
    simp only [Bool.false_eq_true, if_false]
    have hid_eq : ((st.ground_truth_patterns.map fun r =>
        if r.id = patternId then
          ({ id := r.id, experiment_name := name, ground_truth := gt } : GroundTruthRow)
        else r).map GroundTruthRow.id) = st.ground_truth_patterns.map GroundTruthRow.id := by
      rw [List.map_map]
      refine List.map_congr_left ?_
      intro r _
      simp only [Function.comp_apply]
      split <;> rfl
    refine ⟨hpid, hpnm, hpb, ?_, ?_, ?_⟩
    · rw [hid_eq]
      exact hgid
    · refine nodup_map_update st.ground_truth_patterns GroundTruthRow.id
        GroundTruthRow.experiment_name _ patternId name ?_ ?_ hgid hgnm ?_
      · intro a ha
        simp [ha]
      · intro a ha
        simp [ha]
      · rintro ⟨a0, ha0, ha0id⟩ b hb hbid hbnm
        have h1 : st.ground_truth_patterns.any (fun r => r.id = patternId) = true :=
          List.any_eq_true.mpr ⟨a0, ha0, by simp [ha0id]⟩
        have h2 : st.ground_truth_patterns.any
            (fun r => r.id ≠ patternId && r.experiment_name = name) = true :=
          List.any_eq_true.mpr ⟨b, hb, by simp [hbid, hbnm]⟩
        rw [h1, h2] at hviol
        simp at hviol
    · intro r hr
      obtain ⟨r0, hr0, hr0u⟩ := List.mem_map.mp hr
      have : r.id = r0.id := by
        rw [← hr0u]
        split <;> rfl
      rw [this]
      exact hgb r0 hr0

lemma delete_ground_truth_pattern_inv (patternId : Nat) (st : DBState)
    (h : dbInvariant st) :
    dbInvariant (delete_ground_truth_pattern patternId st).2 := by
  obtain ⟨hpid, hpnm, hpb, hgid, hgnm, hgb⟩ := h
  have hsub := (List.filter_sublist (p := fun r => r.id ≠ patternId) st.ground_truth_patterns)
  refine ⟨hpid, hpnm, hpb, ((hsub.map GroundTruthRow.id).nodup hgid),
    ((hsub.map GroundTruthRow.experiment_name).nodup hgnm), ?_⟩
  intro r hr
  exact hgb r (List.mem_of_mem_filter hr)

/-- C5: experiment-name uniqueness is an invariant preserved by every DAO
operation — no two `plant_config` rows and no two `ground_truth_patterns`
rows ever share an `experiment_name` — and `create_plant_config` called with
an existing `experiment_name` leaves the table unchanged and returns `None`
instead of creating a second row. -/
theorem experiment_name_uniqueness (encrypt : String → String) (op : DAOOp) (st : DBState)
    (h : dbInvariant st) :
    dbInvariant (applyOp encrypt op st) ∧
    ∀ (name ip : String) (rack slot dbn ni no : Int),
      st.plant_config.any (fun r => r.experiment_name = name) = true →
      create_plant_config name ip rack slot dbn ni no st = (Option.none, st) := by
  refine ⟨?_, ?_⟩
  · cases op
    case createPlantConfig nm ip ra sl dn ni no =>
      exact create_plant_config_inv nm ip ra sl dn ni no st h
    case updatePlantConfig cid nm ip ra sl dn ni no =>
      exact update_plant_config_inv cid nm ip ra sl dn ni no st h
    case deletePlantConfig cid => exact delete_plant_config_inv cid st h
    case createGroundTruthPattern nm gt => exact create_ground_truth_pattern_inv nm gt st h
    case updateGroundTruthPattern pid nm gt =>
      exact update_ground_truth_pattern_inv pid nm gt st h
    case deleteGroundTruthPattern pid => exact delete_ground_truth_pattern_inv pid st h
    case saveAiKeySettings source rawKey =>
      obtain ⟨hpid, hpnm, hpb, hgid, hgnm, hgb⟩ := h
      simp only [applyOp]
      unfold save_ai_key_settings
      split
      · exact ⟨hpid, hpnm, hpb, hgid, hgnm, hgb⟩
      · split
        · exact ⟨hpid, hpnm, hpb, hgid, hgnm, hgb⟩
        · exact ⟨hpid, hpnm, hpb, hgid, hgnm, hgb⟩
    all_goals exact h
  · intro name ip rack slot dbn ni no hdup
    unfold create_plant_config
    rw [if_pos hdup]

/-- Witness for `experiment_name_uniqueness` at a concrete state. -/
theorem experiment_name_uniqueness_witness :
    dbInvariant (applyOp (fun s => s) (DAOOp.createPlantConfig "exp" "ip" 0 0 0 0 0)
      ⟨[], [], [], [], [], 0, 0, 0, 0, 0⟩) :=
  (experiment_name_uniqueness (fun s => s) (DAOOp.createPlantConfig "exp" "ip" 0 0 0 0 0)
    ⟨[], [], [], [], [], 0, 0, 0, 0, 0⟩ (by unfold dbInvariant; simp)).1

lemma truncSeq_ne_nil (s : List PairV) (hs : s ≠ []) : truncSeq s ≠ [] := by
  unfold truncSeq
  split
  · next hlen =>
    have : s.dropLast.length = s.length - 1 := List.length_dropLast s
    intro hnil
    rw [hnil] at this
    simp only [List.length_nil] at this
    omega
  · exact hs

lemma strBeginsWith_sim_append_nao (x : String) :
    strBeginsWith "sim" ("não" ++ x) = false := by
  unfold strBeginsWith
  rw [String.data_append]
  simp [List.isPrefixOf]

lemma strBeginsWith_sim_append_sim (x : String) :
    strBeginsWith "sim" ("sim\n\n" ++ x) = true := by
  unfold strBeginsWith
  rw [String.data_append]
  simp [List.isPrefixOf]

lemma pyJoin_reportLines_nao (pattern seq : List PairV) (ioNames : List String) (occ : Nat) :
    ∃ rest : String, pyJoin "\n" (reportLines pattern seq ioNames occ) = "não" ++ rest := by
  refine ⟨"\n" ++ pyJoin "\n" ("" :: toString occ :: "" :: tableHeader ::
    ((tableRows pattern seq).map (tableLine pattern) ++ [""]
      ++ (tableRows pattern seq).flatMap (rowExplanation pattern ioNames))), ?_⟩
  rw [← String.append_assoc]
  rfl

lemma correction_output_cases (pattern seqPairs : List PairV) (ioNames : List String)
    (hP : pattern.length ≠ 0) (hS : (truncSeq seqPairs).length ≠ 0) :
    (2 ≤ countOccurrences pattern (truncSeq seqPairs) ioNames.length →
      format_correction_output pattern seqPairs ioNames =
        "sim\n\n" ++ toString (countOccurrences pattern (truncSeq seqPairs) ioNames.length))
  ∧ (countOccurrences pattern (truncSeq seqPairs) ioNames.length < 2 →
      format_correction_output pattern seqPairs ioNames =
        pyJoin "\n" (reportLines pattern (truncSeq seqPairs) ioNames
          (countOccurrences pattern (truncSeq seqPairs) ioNames.length))) := by
  unfold format_correction_output correctionBody
  rw [if_neg (by push_neg; exact ⟨hP, hS⟩)]
  constructor
  · intro hocc
    rw [if_pos hocc]
  · intro hocc
    rw [if_neg (by omega)]

lemma two_le_length_of_mem_ne {α : Type} {a b : α} {l : List α}
    (ha : a ∈ l) (hb : b ∈ l) (hab : a ≠ b) : 2 ≤ l.length := by
  obtain ⟨s, t, rfl⟩ := List.append_of_mem ha
  rcases List.mem_append.mp hb with hbs | hbt
  · have := List.length_pos_of_mem hbs
    simp only [List.length_append, List.length_cons]
    omega
  · rcases List.mem_cons.mp hbt with hba | hbt'
    · exact absurd hba.symm hab
    · have := List.length_pos_of_mem hbt'
      simp only [List.length_append, List.length_cons]
      omega

lemma two_le_filter_range_iff (p : Nat → Bool) (n : Nat) :
    2 ≤ ((List.range n).filter p).length ↔
      ∃ i j : Nat, i < j ∧ j < n ∧ p i = true ∧ p j = true := by
  constructor
  · intro hlen
    have hnd : ((List.range n).filter p).Nodup := (List.nodup_range n).filter p
    cases hl : (List.range n).filter p with
    | nil => rw [hl] at hlen; simp at hlen
    | cons a l1 =>
      cases l1 with
      | nil => rw [hl] at hlen; simp at hlen
      | cons b l2 =>
        have hamem : a ∈ (List.range n).filter p := by rw [hl]; simp
        have hbmem : b ∈ (List.range n).filter p := by rw [hl]; simp
        have hane : a ≠ b := by
          rw [hl] at hnd
          have := (List.nodup_cons.mp hnd).1
          intro hcontra
          exact this (by rw [hcontra]; simp)
        obtain ⟨han, hap⟩ := List.mem_filter.mp hamem
        obtain ⟨hbn, hbp⟩ := List.mem_filter.mp hbmem
        have han' := List.mem_range.mp han
        have hbn' := List.mem_range.mp hbn
        rcases Nat.lt_or_ge a b with hab | hab
        · exact ⟨a, b, hab, hbn', hap, hbp⟩
        · have hba : b < a := lt_of_le_of_ne hab (Ne.symm hane)
          exact ⟨b, a, hba, han', hbp, hap⟩
  · rintro ⟨i, j, hij, hjn, hpi, hpj⟩
    have hi : i ∈ (List.range n).filter p :=
      List.mem_filter.mpr ⟨List.mem_range.mpr (lt_trans hij hjn), hpi⟩
    have hj : j ∈ (List.range n).filter p :=
      List.mem_filter.mpr ⟨List.mem_range.mpr hjn, hpj⟩
    exact two_le_length_of_mem_ne hi hj (Nat.ne_of_lt hij)

lemma alignedCycleOccurs_iff (pattern seq : List PairV) (bitCount c : Nat)
    (hP : pattern ≠ []) :
    alignedCycleOccurs pattern seq bitCount c = true ↔
      c < seq.length / pattern.length ∧ cycleMatches pattern seq bitCount c = true := by
  have hm : 0 < pattern.length := List.length_pos.mpr hP
  unfold alignedCycleOccurs
  simp only [Bool.and_eq_true, decide_eq_true_eq]
  constructor
  · rintro ⟨hle, hcm⟩
    exact ⟨Nat.lt_iff_add_one_le.mpr ((Nat.le_div_iff_mul_le hm).mpr hle), hcm⟩
  · rintro ⟨hlt, hcm⟩
    exact ⟨(Nat.le_div_iff_mul_le hm).mp (Nat.lt_iff_add_one_le.mp hlt), hcm⟩

/-- C1 counterexample: approval is not equivalent to the pattern occurring
completely and contiguously at least twice at arbitrary positions.  The
pattern `(1,1),(2,1)` occurs contiguously at positions 1 and 3 of the
observed sequence, yet the routine reports "não": it only scans
pattern-aligned cycles (positions `0·m, 1·m, …`) of the truncated sequence,
and neither aligned cycle matches here. -/
theorem approval_not_arbitrary_occurrences :
    (∃ p1 p2 : Nat, p1 < p2 ∧
        patternOccursAt [(PyVal.int 1, PyVal.int 1), (PyVal.int 2, PyVal.int 1)]
          [(PyVal.int 0, PyVal.int 0), (PyVal.int 1, PyVal.int 1), (PyVal.int 2, PyVal.int 1),
           (PyVal.int 1, PyVal.int 1), (PyVal.int 2, PyVal.int 1), (PyVal.int 9, PyVal.int 9)]
          p1 = true ∧
        patternOccursAt [(PyVal.int 1, PyVal.int 1), (PyVal.int 2, PyVal.int 1)]
          [(PyVal.int 0, PyVal.int 0), (PyVal.int 1, PyVal.int 1), (PyVal.int 2, PyVal.int 1),
           (PyVal.int 1, PyVal.int 1), (PyVal.int 2, PyVal.int 1), (PyVal.int 9, PyVal.int 9)]
          p2 = true) ∧
    strBeginsWith "sim"
      (format_correction_output [(PyVal.int 1, PyVal.int 1), (PyVal.int 2, PyVal.int 1)]
        [(PyVal.int 0, PyVal.int 0), (PyVal.int 1, PyVal.int 1), (PyVal.int 2, PyVal.int 1),
         (PyVal.int 1, PyVal.int 1), (PyVal.int 2, PyVal.int 1), (PyVal.int 9, PyVal.int 9)]
        ["in1", "in2"]) = false :=
  ⟨⟨1, 3, by decide, by decide, by decide⟩, by decide⟩

/-- C1 amended: the routine reports approval (output beginning `"sim"`,
together with the occurrence count) if and only if the reference pattern
occurs completely — element-wise under the routine's comparisons, with all
observed values valid for the I/O count — in at least two of the
pattern-aligned cycles of the truncated observed sequence (the last observed
pair being dropped when more than one is present); occurrences at arbitrary
unaligned positions are not counted. -/
theorem approval_iff_two_aligned_occurrences (pattern seqPairs : List PairV)
    (ioNames : List String) (hP : pattern ≠ []) (hS : seqPairs ≠ []) :
    (strBeginsWith "sim" (format_correction_output pattern seqPairs ioNames) = true ↔
      ∃ c1 c2 : Nat, c1 < c2 ∧
        alignedCycleOccurs pattern (truncSeq seqPairs) ioNames.length c1 = true ∧
        alignedCycleOccurs pattern (truncSeq seqPairs) ioNames.length c2 = true)
  ∧ (2 ≤ countOccurrences pattern (truncSeq seqPairs) ioNames.length →
      format_correction_output pattern seqPairs ioNames =
        "sim\n\n" ++ toString (countOccurrences pattern (truncSeq seqPairs) ioNames.length)) := by
  have hP0 : pattern.length ≠ 0 := fun hz => hP (List.length_eq_zero.mp hz)
  have hS0 : (truncSeq seqPairs).length ≠ 0 :=
    fun hz => truncSeq_ne_nil seqPairs hS (List.length_eq_zero.mp hz)
  obtain ⟨hsim, hnao⟩ := correction_output_cases pattern seqPairs ioNames hP0 hS0
  have hcount : 2 ≤ countOccurrences pattern (truncSeq seqPairs) ioNames.length ↔
      ∃ c1 c2 : Nat, c1 < c2 ∧
        alignedCycleOccurs pattern (truncSeq seqPairs) ioNames.length c1 = true ∧
        alignedCycleOccurs pattern (truncSeq seqPairs) ioNames.length c2 = true := by
    unfold countOccurrences
    rw [two_le_filter_range_iff]
    constructor
    · rintro ⟨i, j, hij, hjn, hpi, hpj⟩
      exact ⟨i, j, hij,
        (alignedCycleOccurs_iff pattern (truncSeq seqPairs) ioNames.length i hP).mpr
          ⟨lt_trans hij hjn, hpi⟩,
        (alignedCycleOccurs_iff pattern (truncSeq seqPairs) ioNames.length j hP).mpr
          ⟨hjn, hpj⟩⟩
    · rintro ⟨c1, c2, h12, ha1, ha2⟩
      obtain ⟨hc1, hm1⟩ :=
        (alignedCycleOccurs_iff pattern (truncSeq seqPairs) ioNames.length c1 hP).mp ha1
      obtain ⟨hc2, hm2⟩ :=
        (alignedCycleOccurs_iff pattern (truncSeq seqPairs) ioNames.length c2 hP).mp ha2
      exact ⟨c1, c2, h12, hc2, hm1, hm2⟩
  refine ⟨?_, hsim⟩
  constructor
  · intro hbegins
    by_cases hocc : 2 ≤ countOccurrences pattern (truncSeq seqPairs) ioNames.length
    · exact hcount.mp hocc
    · exfalso
      obtain ⟨rest, hrest⟩ := pyJoin_reportLines_nao pattern (truncSeq seqPairs) ioNames
        (countOccurrences pattern (truncSeq seqPairs) ioNames.length)
      rw [hnao (by omega), hrest, strBeginsWith_sim_append_nao] at hbegins
      exact Bool.false_ne_true hbegins
  · intro hex
    rw [hsim (hcount.mpr hex), strBeginsWith_sim_append_sim]

/-- Witness for `approval_iff_two_aligned_occurrences` at a concrete input. -/
theorem approval_iff_two_aligned_occurrences_witness :
    ([(PyVal.int 1, PyVal.int 1)] : List PairV) ≠ [] ∧
    ([(PyVal.int 1, PyVal.int 1), (PyVal.int 1, PyVal.int 1), (PyVal.int 9, PyVal.int 9)]
      : List PairV) ≠ [] ∧
    (2 ≤ countOccurrences [(PyVal.int 1, PyVal.int 1)]
        (truncSeq [(PyVal.int 1, PyVal.int 1), (PyVal.int 1, PyVal.int 1),
          (PyVal.int 9, PyVal.int 9)]) 0 →
      format_correction_output [(PyVal.int 1, PyVal.int 1)]
          [(PyVal.int 1, PyVal.int 1), (PyVal.int 1, PyVal.int 1), (PyVal.int 9, PyVal.int 9)] []
        = "sim\n\n" ++ toString (countOccurrences [(PyVal.int 1, PyVal.int 1)]
            (truncSeq [(PyVal.int 1, PyVal.int 1), (PyVal.int 1, PyVal.int 1),
              (PyVal.int 9, PyVal.int 9)]) 0)) :=
  ⟨by decide, by decide,
    (approval_iff_two_aligned_occurrences [(PyVal.int 1, PyVal.int 1)]
      [(PyVal.int 1, PyVal.int 1), (PyVal.int 1, PyVal.int 1), (PyVal.int 9, PyVal.int 9)] []
      (by decide) (by decide)).2⟩

lemma diffIos_mem_complete (bitCount : Nat) (names : List String) (e a : Option Int)
    (i : Nat) (hi : i < bitCount)
    (hne : pyBitOpt e (bitCount - 1 - i) ≠ pyBitOpt a (bitCount - 1 - i)) :
    diffLine names i (pyBitOpt e (bitCount - 1 - i)) (pyBitOpt a (bitCount - 1 - i))
      ∈ diffIos bitCount names e a := by
  unfold diffIos
  refine List.mem_filterMap.mpr ⟨i, List.mem_range.mpr hi, ?_⟩
  rw [if_pos hne]

lemma diffIos_mem_sound (bitCount : Nat) (names : List String) (e a : Option Int)
    (line : String) (hline : line ∈ diffIos bitCount names e a) :
    ∃ i : Nat, i < bitCount ∧
      pyBitOpt e (bitCount - 1 - i) ≠ pyBitOpt a (bitCount - 1 - i) ∧
      line = diffLine names i (pyBitOpt e (bitCount - 1 - i)) (pyBitOpt a (bitCount - 1 - i)) := by
  unfold diffIos at hline
  obtain ⟨i, hmem, hf⟩ := List.mem_filterMap.mp hline
  by_cases hcond : pyBitOpt e (bitCount - 1 - i) ≠ pyBitOpt a (bitCount - 1 - i)
  · rw [if_pos hcond] at hf
    exact ⟨i, List.mem_range.mp hmem, hcond, (Option.some.inj hf).symm⟩
  · rw [if_neg hcond] at hf
    exact absurd hf (Option.noConfusion)

lemma rowExplanation_cases (pattern : List PairV) (ioNames : List String) (r : TableRow) :
    (rowExplanation pattern ioNames r = [] ↔ (r.stepMatch = true ∧ r.timeMatch = true))
    ∧ (r.stepMatch = false →
        "Valor incorreto: " ++ r.actStep.toStr ∈ rowExplanation pattern ioNames r)
    ∧ (r.timeMatch = false →
        "Tempo: " ++ r.actTime.toStr ++ " ❌" ∈ rowExplanation pattern ioNames r) := by
  cases hs : r.stepMatch <;> cases ht : r.timeMatch <;>
    simp [rowExplanation, hs, ht]

set_option maxRecDepth 8192 in
/-- C2 counterexample: the non-approved report is not "matched prefix plus
the first divergent element": on this input the very first observed element
already diverges, yet the report also contains the table row and the
bit-level block for the second divergent element (`Valor incorreto: 3`)
after the first (`Valor incorreto: 2`), and the routine's output is exactly
the join of those lines. -/
theorem diff_report_not_limited_to_first_divergence :
    step_ok (PyVal.int 1) (PyVal.int 2) = false ∧
    "Valor incorreto: 2" ∈ reportLines [(PyVal.int 1, PyVal.int 1)]
      (truncSeq [(PyVal.int 2, PyVal.int 1), (PyVal.int 3, PyVal.int 1),
        (PyVal.int 9, PyVal.int 9)]) ["in1"] 0 ∧
    "Valor incorreto: 3" ∈ reportLines [(PyVal.int 1, PyVal.int 1)]
      (truncSeq [(PyVal.int 2, PyVal.int 1), (PyVal.int 3, PyVal.int 1),
        (PyVal.int 9, PyVal.int 9)]) ["in1"] 0 ∧
    format_correction_output [(PyVal.int 1, PyVal.int 1)]
        [(PyVal.int 2, PyVal.int 1), (PyVal.int 3, PyVal.int 1), (PyVal.int 9, PyVal.int 9)]
        ["in1"]
      = pyJoin "\n" (reportLines [(PyVal.int 1, PyVal.int 1)]
          (truncSeq [(PyVal.int 2, PyVal.int 1), (PyVal.int 3, PyVal.int 1),
            (PyVal.int 9, PyVal.int 9)]) ["in1"] 0) := by
  refine ⟨by decide, by decide, by decide, by decide⟩

/-- C2 amended: whenever the routine does not approve, its output is the
line-join of a structured report that lists one table row for EVERY element
of the truncated observed sequence (each compared against the pattern
element at its index modulo the pattern length), and, for EVERY mismatching
element — not only the first — an explanation block: the incorrect value
when the step mismatches, a time line when the duration mismatches, and one
bit-level line per differing I/O, naming `io_names[i]` with the expected and
actual on/off state of bit `n-1-i`. -/
theorem diff_report_structure (pattern seqPairs : List PairV) (ioNames : List String)
    (hP : pattern ≠ []) (hS : seqPairs ≠ [])
    (hocc : countOccurrences pattern (truncSeq seqPairs) ioNames.length < 2) :
    (format_correction_output pattern seqPairs ioNames =
        pyJoin "\n" (reportLines pattern (truncSeq seqPairs) ioNames
          (countOccurrences pattern (truncSeq seqPairs) ioNames.length)))
  ∧ (tableRows pattern (truncSeq seqPairs)).length = (truncSeq seqPairs).length
  ∧ (∀ (i : Nat) (av tv ev et : PyVal),
        (truncSeq seqPairs)[i]? = some (av, tv) →
        pattern[i % pattern.length]? = some (ev, et) →
        (tableRows pattern (truncSeq seqPairs))[i]? =
          some { index := i, mismatchIndex := i % pattern.length,
                 actStep := av, actTime := tv,
                 stepMatch := step_ok ev av, timeMatch := time_ok et tv })
  ∧ (∀ r : TableRow,
        (rowExplanation pattern ioNames r = [] ↔ (r.stepMatch = true ∧ r.timeMatch = true))
        ∧ (r.stepMatch = false →
            "Valor incorreto: " ++ r.actStep.toStr ∈ rowExplanation pattern ioNames r)
        ∧ (r.timeMatch = false →
            "Tempo: " ++ r.actTime.toStr ++ " ❌" ∈ rowExplanation pattern ioNames r))
  ∧ (∀ (e a : Option Int) (i : Nat), i < ioNames.length →
        pyBitOpt e (ioNames.length - 1 - i) ≠ pyBitOpt a (ioNames.length - 1 - i) →
        diffLine ioNames i (pyBitOpt e (ioNames.length - 1 - i))
            (pyBitOpt a (ioNames.length - 1 - i))
          ∈ diffIos ioNames.length ioNames e a)
  ∧ (∀ (e a : Option Int) (line : String), line ∈ diffIos ioNames.length ioNames e a →
      ∃ i : Nat, i < ioNames.length ∧
        pyBitOpt e (ioNames.length - 1 - i) ≠ pyBitOpt a (ioNames.length - 1 - i) ∧
        line = diffLine ioNames i (pyBitOpt e (ioNames.length - 1 - i))
          (pyBitOpt a (ioNames.length - 1 - i))) := by
  have hP0 : pattern.length ≠ 0 := fun hz => hP (List.length_eq_zero.mp hz)
  have hS0 : (truncSeq seqPairs).length ≠ 0 :=
    fun hz => truncSeq_ne_nil seqPairs hS (List.length_eq_zero.mp hz)
  refine ⟨(correction_output_cases pattern seqPairs ioNames hP0 hS0).2 hocc, ?_, ?_, ?_, ?_, ?_⟩
  · unfold tableRows
    rw [List.length_map, List.enum_length]
  · intro i av tv ev et hsi hpi
    unfold tableRows
    rw [List.getElem?_map, List.getElem?_enum, hsi]
    simp only [Option.map_some']
    rw [List.getD_eq_getElem?_getD, hpi]
    rfl
  · exact rowExplanation_cases pattern ioNames
  · exact fun e a i hi hne => diffIos_mem_complete ioNames.length ioNames e a i hi hne
  · exact fun e a line hline => diffIos_mem_sound ioNames.length ioNames e a line hline

/-- Witness for `diff_report_structure` at a concrete input. -/
theorem diff_report_structure_witness :
    ([(PyVal.int 1, PyVal.int 1)] : List PairV) ≠ [] ∧
    ([(PyVal.int 2, PyVal.int 1), (PyVal.int 9, PyVal.int 9)] : List PairV) ≠ [] ∧
    countOccurrences [(PyVal.int 1, PyVal.int 1)]
      (truncSeq [(PyVal.int 2, PyVal.int 1), (PyVal.int 9, PyVal.int 9)]) 1 < 2 ∧
    (tableRows [(PyVal.int 1, PyVal.int 1)]
      (truncSeq [(PyVal.int 2, PyVal.int 1), (PyVal.int 9, PyVal.int 9)])).length
      = (truncSeq [(PyVal.int 2, PyVal.int 1), (PyVal.int 9, PyVal.int 9)]).length :=
  ⟨by decide, by decide, by decide,
    (diff_report_structure [(PyVal.int 1, PyVal.int 1)]
      [(PyVal.int 2, PyVal.int 1), (PyVal.int 9, PyVal.int 9)] ["in1"]
      (by decide) (by decide) (by decide)).2.1⟩
